import Mathlib

/-!
Verification of the 50cube backend's league scoring, leaderboard ranking and
snapshot-aggregation logic, shallowly embedded from the TypeScript source
(`src/models/League.ts`, `src/services/snapshotJob.ts`).

Numeric score fields (accuracy, time, points) are JavaScript numbers; they are
modelled as rationals (`ℚ`).  Timestamps and dates are modelled as integers
(milliseconds since the epoch).  Mongoose documents become plain structures and
the collection of snapshot documents becomes a list.
-/

/-- A game score (`IGameScore` / `gameScoreSchema`): accuracy percentage,
elapsed time in seconds, points, and the submission timestamp. -/
structure GameScore where
  accuracy : ℚ
  timeInSeconds : ℚ
  points : ℚ
  submittedAt : Int
  deriving Repr, DecidableEq

/-- A league participant (`leagueParticipantSchema`): user identity, join
timestamp, the append-only submission history, and the cached best
submission. -/
structure Participant where
  userId : Nat
  username : String
  joinedAt : Int
  submissions : List GameScore
  bestSubmission : GameScore
  deriving Repr, DecidableEq

/-- A stored league document (`leagueSchema`): the time window,
`rules.scoringMethod`, `rules.maxSubmissions`, the lifecycle `status`, the
`category` tag (enum math/science/language/general/mixed), and the
participant roster.  The schema runs in Mongoose's default strict mode, so a
stored document carries exactly these paths. -/
structure League where
  startDate : Int
  endDate : Int
  scoringMethod : String
  maxSubmissions : Nat
  status : String
  category : String
  participants : List Participant
  deriving Repr, DecidableEq

/-- `leagueSchema.methods.isBetterScore`: the `switch` on
`this.rules.scoringMethod`, whose `default` arm shares the `points_only`
body, so any unrecognised method falls back to a points comparison. -/
def isBetterScore (method : String) (newScore currentBest : GameScore) : Bool :=
  if method = "accuracy_then_time" then
    if newScore.accuracy > currentBest.accuracy then true
    else if newScore.accuracy = currentBest.accuracy ∧
        newScore.timeInSeconds < currentBest.timeInSeconds then true
    else false
  else if method = "time_then_accuracy" then
    if newScore.timeInSeconds < currentBest.timeInSeconds then true
    else if newScore.timeInSeconds = currentBest.timeInSeconds ∧
        newScore.accuracy > currentBest.accuracy then true
    else false
  else
    newScore.points > currentBest.points

/-- C1: `isBetterScore` decides "candidate beats current best" exactly by the
league's scoring method — `accuracy_then_time` compares accuracy strictly then
time strictly, `time_then_accuracy` compares time strictly then accuracy
strictly, and `points_only` as well as any unrecognised method compares points
strictly; a candidate equal to the current best in all compared fields never
wins. -/
theorem isBetterScore_spec (m : String) (c b : GameScore) :
    (isBetterScore m c b = true ↔
      (if m = "accuracy_then_time" then
        c.accuracy > b.accuracy ∨
          (c.accuracy = b.accuracy ∧ c.timeInSeconds < b.timeInSeconds)
      else if m = "time_then_accuracy" then
        c.timeInSeconds < b.timeInSeconds ∨
          (c.timeInSeconds = b.timeInSeconds ∧ c.accuracy > b.accuracy)
      else c.points > b.points))
    ∧ isBetterScore m c c = false := by
  unfold isBetterScore
  constructor
  · split_ifs with h1 h2 h3 h4 h5 <;> simp_all
  · split_ifs with h1 h2 h3 h4 h5 <;> simp_all

/-- A leaderboard entry (`ILeaderboardEntry`) as built by `getLeaderboard`:
the participant's identity, the fields of its best submission, the submission
count, and the rank filled in after sorting. -/
structure LeaderboardEntry where
  userId : Nat
  username : String
  accuracy : ℚ
  timeInSeconds : ℚ
  points : ℚ
  submittedAt : Int
  submissions : Nat
  rank : Nat
  deriving Repr, DecidableEq

/-- The `map` step of `getLeaderboard`: project a participant to an entry with
`rank: 0` ("Will be set after sorting"). -/
def toEntry (p : Participant) : LeaderboardEntry :=
  { userId := p.userId
    username := p.username
    accuracy := p.bestSubmission.accuracy
    timeInSeconds := p.bestSubmission.timeInSeconds
    points := p.bestSubmission.points
    submittedAt := p.bestSubmission.submittedAt
    submissions := p.submissions.length
    rank := 0 }

/-- The comparator of `getLeaderboard`'s `participants.sort(...)`, read as the
relation "`cmp(a,b) ≤ 0`", i.e. the sort may keep `a` no later than `b`.
JavaScript's `Array.prototype.sort` is specified to be a stable sort with
respect to this relation. -/
def entryLe (method : String) (a b : LeaderboardEntry) : Bool :=
  if method = "accuracy_then_time" then
    if b.accuracy ≠ a.accuracy then b.accuracy ≤ a.accuracy
    else a.timeInSeconds ≤ b.timeInSeconds
  else if method = "time_then_accuracy" then
    if a.timeInSeconds ≠ b.timeInSeconds then a.timeInSeconds ≤ b.timeInSeconds
    else b.accuracy ≤ a.accuracy
  else
    b.points ≤ a.points

/-- The rank-assignment loop of `getLeaderboard`:
`participants.forEach((participant, index) => participant.rank = index + 1)`,
with `i` the number of entries already passed. -/
def assignRanks : Nat → List LeaderboardEntry → List LeaderboardEntry
  | _, [] => []
  | i, e :: es => { e with rank := i + 1 } :: assignRanks (i + 1) es

/-- `leagueSchema.methods.getLeaderboard`: filter out participants whose best
submission has no points, project to entries, stable-sort by the league's
scoring method, then assign 1-based ranks in order. -/
def getLeaderboard (l : League) : List LeaderboardEntry :=
  assignRanks 0
    (((l.participants.filter (fun p => p.bestSubmission.points > 0)).map toEntry).mergeSort
      (entryLe l.scoringMethod))

/-- Forgets the rank of a leaderboard entry, so that ranked output can be
compared with the unranked entries fed into the sort. -/
def eraseRank (e : LeaderboardEntry) : LeaderboardEntry :=
  { e with rank := 0 }

/-- The ordering the specification prescribes between adjacent leaderboard
entries: `accuracy_then_time` orders by accuracy descending then time
ascending, `time_then_accuracy` by time ascending then accuracy descending,
and `points_only` (or any other method) by points descending.  Transcribed
from the specification's words, to be compared with `entryLe`. -/
def specMethodOrder (method : String) (a b : LeaderboardEntry) : Prop :=
  if method = "accuracy_then_time" then
    a.accuracy > b.accuracy ∨ (a.accuracy = b.accuracy ∧ a.timeInSeconds ≤ b.timeInSeconds)
  else if method = "time_then_accuracy" then
    a.timeInSeconds < b.timeInSeconds ∨
      (a.timeInSeconds = b.timeInSeconds ∧ a.accuracy ≥ b.accuracy)
  else
    a.points ≥ b.points

/-- Two leaderboard entries tied on every key the scoring method compares.
Transcribed from the specification's words. -/
def specSameKeys (method : String) (a b : LeaderboardEntry) : Prop :=
  if method = "accuracy_then_time" then
    a.accuracy = b.accuracy ∧ a.timeInSeconds = b.timeInSeconds
  else if method = "time_then_accuracy" then
    a.timeInSeconds = b.timeInSeconds ∧ a.accuracy = b.accuracy
  else
    a.points = b.points

theorem lexTiebreak_iff (x y u v : ℚ) :
    (((if x ≠ y then x ≤ y else u ≤ v) : Bool) = true) ↔ (x < y ∨ (x = y ∧ u ≤ v)) := by
  by_cases h : x = y
  · rw [if_neg (by simp [h])]
    simp [h]
  · rw [if_pos h]
    simp only [decide_eq_true_eq]
    constructor
    · intro hle
      exact Or.inl (lt_of_le_of_ne hle h)
    · rintro (hlt | ⟨he, -⟩)
      · exact le_of_lt hlt
      · exact absurd he h

theorem entryLe_iff (m : String) (a b : LeaderboardEntry) :
    entryLe m a b = true ↔
      (if m = "accuracy_then_time" then
        b.accuracy < a.accuracy ∨
          (b.accuracy = a.accuracy ∧ a.timeInSeconds ≤ b.timeInSeconds)
      else if m = "time_then_accuracy" then
        a.timeInSeconds < b.timeInSeconds ∨
          (a.timeInSeconds = b.timeInSeconds ∧ b.accuracy ≤ a.accuracy)
      else b.points ≤ a.points) := by
  unfold entryLe
  by_cases hm1 : m = "accuracy_then_time"
  · rw [if_pos hm1, if_pos hm1]
    exact lexTiebreak_iff _ _ _ _
  · by_cases hm2 : m = "time_then_accuracy"
    · rw [if_neg hm1, if_neg hm1, if_pos hm2, if_pos hm2]
      exact lexTiebreak_iff _ _ _ _
    · rw [if_neg hm1, if_neg hm1, if_neg hm2, if_neg hm2]
      exact decide_eq_true_iff

theorem entryLe_trans (m : String) (a b c : LeaderboardEntry) :
    entryLe m a b → entryLe m b c → entryLe m a c := by
  intro h1 h2
  rw [entryLe_iff] at h1 h2 ⊢
  split_ifs at h1 h2 ⊢ with hm1 hm2
  · rcases h1 with h1 | ⟨h1e, h1t⟩ <;> rcases h2 with h2 | ⟨h2e, h2t⟩ <;>
      first
        | exact Or.inl (by linarith)
        | exact Or.inr ⟨by linarith, by linarith⟩
  · rcases h1 with h1 | ⟨h1e, h1t⟩ <;> rcases h2 with h2 | ⟨h2e, h2t⟩ <;>
      first
        | exact Or.inl (by linarith)
        | exact Or.inr ⟨by linarith, by linarith⟩
  · linarith

theorem entryLe_total (m : String) (a b : LeaderboardEntry) :
    entryLe m a b || entryLe m b a := by
  rw [Bool.or_eq_true, entryLe_iff, entryLe_iff]
  split_ifs with hm1 hm2
  · rcases lt_trichotomy a.accuracy b.accuracy with h | h | h
    · exact Or.inr (Or.inl h)
    · rcases le_total a.timeInSeconds b.timeInSeconds with ht | ht
      · exact Or.inl (Or.inr ⟨h.symm, ht⟩)
      · exact Or.inr (Or.inr ⟨h, ht⟩)
    · exact Or.inl (Or.inl h)
  · rcases lt_trichotomy a.timeInSeconds b.timeInSeconds with h | h | h
    · exact Or.inl (Or.inl h)
    · rcases le_total a.accuracy b.accuracy with ht | ht
      · exact Or.inr (Or.inr ⟨h.symm, ht⟩)
      · exact Or.inl (Or.inr ⟨h, ht⟩)
    · exact Or.inr (Or.inl h)
  · rcases le_total a.points b.points with h | h
    · exact Or.inr h
    · exact Or.inl h

theorem entryLe_of_sameKeys (m : String) (a b : LeaderboardEntry)
    (h : specSameKeys m a b) : entryLe m a b = true := by
  unfold specSameKeys at h
  rw [entryLe_iff]
  split_ifs at h ⊢
  · exact Or.inr ⟨h.1.symm, le_of_eq h.2⟩
  · exact Or.inr ⟨h.1, le_of_eq h.2.symm⟩
  · exact le_of_eq h.symm

theorem specMethodOrder_of_entryLe (m : String) (a b : LeaderboardEntry)
    (h : entryLe m a b = true) : specMethodOrder m a b := by
  rw [entryLe_iff] at h
  unfold specMethodOrder
  split_ifs at h ⊢
  · rcases h with h | ⟨he, ht⟩
    · exact Or.inl h
    · exact Or.inr ⟨he.symm, ht⟩
  · exact h
  · exact h

theorem assignRanks_map_eraseRank (i : Nat) (xs : List LeaderboardEntry) :
    (assignRanks i xs).map eraseRank = xs.map eraseRank := by
  induction xs generalizing i with
  | nil => rfl
  | cons e es ih => simp [assignRanks, eraseRank, ih]

theorem map_eraseRank_of_rank_zero (xs : List LeaderboardEntry)
    (h : ∀ e ∈ xs, e.rank = 0) : xs.map eraseRank = xs := by
  induction xs with
  | nil => rfl
  | cons e es ih =>
    have he : e.rank = 0 := h e (List.mem_cons_self e es)
    simp only [List.map_cons, ih fun x hx => h x (List.mem_cons_of_mem e hx)]
    congr 1
    cases e
    simp_all [eraseRank]

theorem assignRanks_map_rank (i : Nat) (xs : List LeaderboardEntry) :
    (assignRanks i xs).map LeaderboardEntry.rank = List.range' (i + 1) xs.length := by
  induction xs generalizing i with
  | nil => rfl
  | cons e es ih => simp [assignRanks, List.range', ih]

theorem mem_assignRanks (i : Nat) (xs : List LeaderboardEntry) (b : LeaderboardEntry)
    (hb : b ∈ assignRanks i xs) : ∃ x ∈ xs, ∃ j, b = { x with rank := j } := by
  induction xs generalizing i with
  | nil => simp [assignRanks] at hb
  | cons e es ih =>
    simp only [assignRanks, List.mem_cons] at hb
    rcases hb with h | h
    · exact ⟨e, List.mem_cons_self e es, i + 1, h⟩
    · obtain ⟨x, hx, j, hj⟩ := ih (i + 1) h
      exact ⟨x, List.mem_cons_of_mem e hx, j, hj⟩

theorem pairwise_assignRanks {R : LeaderboardEntry → LeaderboardEntry → Prop}
    (hR : ∀ a b i j, R a b → R { a with rank := i } { b with rank := j })
    (i : Nat) (xs : List LeaderboardEntry) (h : xs.Pairwise R) :
    (assignRanks i xs).Pairwise R := by
  induction xs generalizing i with
  | nil => exact List.Pairwise.nil
  | cons e es ih =>
    rcases h with _ | ⟨he, hes⟩
    refine List.Pairwise.cons ?_ (ih (i + 1) hes)
    intro b hb
    obtain ⟨x, hx, j, hj⟩ := mem_assignRanks (i + 1) es b hb
    subst hj
    have : R e x := he x hx
    have h2 := hR e x (i + 1) j this
    convert h2 using 2

theorem assignRanks_length (i : Nat) (xs : List LeaderboardEntry) :
    (assignRanks i xs).length = xs.length := by
  induction xs generalizing i with
  | nil => rfl
  | cons e es ih => simp [assignRanks, ih]

theorem specMethodOrder_rank_invariant (m : String) (a b : LeaderboardEntry) (i j : Nat)
    (h : specMethodOrder m a b) :
    specMethodOrder m { a with rank := i } { b with rank := j } := h

/-- C2: `getLeaderboard` returns exactly the participants whose best
submission has positive points (as a permutation of the filtered roster's
entries), ordered by the league's scoring method, with dense 1-based ranks
assigned by list position, and with participants tied on all method-specific
keys kept in their roster (join) order. -/
theorem getLeaderboard_correct (l : League) :
    ((getLeaderboard l).map eraseRank).Perm
        ((l.participants.filter (fun p => p.bestSubmission.points > 0)).map toEntry)
    ∧ (getLeaderboard l).Pairwise (specMethodOrder l.scoringMethod)
    ∧ (getLeaderboard l).map LeaderboardEntry.rank =
        List.range' 1 (getLeaderboard l).length
    ∧ (∀ a b : LeaderboardEntry,
        [a, b].Sublist
          ((l.participants.filter (fun p => p.bestSubmission.points > 0)).map toEntry) →
        specSameKeys l.scoringMethod a b →
        [a, b].Sublist ((getLeaderboard l).map eraseRank)) := by
  set m := l.scoringMethod with hm
  set es := (l.participants.filter (fun p => p.bestSubmission.points > 0)).map toEntry with hes
  set s := es.mergeSort (entryLe m) with hs
  have h0 : ∀ e ∈ es, e.rank = 0 := by
    intro e he
    rw [hes] at he
    obtain ⟨p, -, hp⟩ := List.mem_map.mp he
    rw [← hp]
    rfl
  have h0s : ∀ e ∈ s, e.rank = 0 := fun e he => h0 e (List.mem_mergeSort.mp he)
  have hmap : (getLeaderboard l).map eraseRank = s := by
    rw [getLeaderboard, ← hm, ← hes, ← hs, assignRanks_map_eraseRank,
      map_eraseRank_of_rank_zero s h0s]
  refine ⟨?_, ?_, ?_, ?_⟩
  · rw [hmap]
    exact List.mergeSort_perm es (entryLe m)
  · have hp : s.Pairwise (fun a b => entryLe m a b = true) :=
      List.sorted_mergeSort (entryLe_trans m) (entryLe_total m) es
    have hp2 : s.Pairwise (specMethodOrder m) :=
      hp.imp fun h => specMethodOrder_of_entryLe m _ _ h
    exact pairwise_assignRanks (specMethodOrder_rank_invariant m) 0 s hp2
  · rw [getLeaderboard, ← hm, ← hes, ← hs, assignRanks_map_rank, assignRanks_length]
  · intro a b hab hkeys
    rw [hmap]
    exact List.pair_sublist_mergeSort (entryLe_trans m) (entryLe_total m)
      (entryLe_of_sameKeys m a b hkeys) hab

/-- A best submission holding `points` points and nothing else, used by the
concrete leaderboard example. -/
def exScore (pts : ℚ) : GameScore :=
  { accuracy := 0, timeInSeconds := 0, points := pts, submittedAt := 0 }

/-- A participant whose best submission has `pts` points, used by the concrete
leaderboard example. -/
def exPart (uid : Nat) (name : String) (pts : ℚ) : Participant :=
  { userId := uid, username := name, joinedAt := 0, submissions := [],
    bestSubmission := exScore pts }

/-- A `points_only` league whose roster joined with best points
[0, 50, 80, 80, 30]; the two 80-point participants joined in the order
user 2 then user 3. -/
def exampleLeague : League :=
  { startDate := 0, endDate := 1, scoringMethod := "points_only", maxSubmissions := 3,
    status := "active", category := "general",
    participants :=
      [exPart 0 "Zero" 0, exPart 1 "Fifty" 50, exPart 2 "P1" 80, exPart 3 "P2" 80,
        exPart 4 "Thirty" 30] }

/-- Witness for C2 at the example of the claim: under `points_only` with best
points [0, 50, 80, 80, 30], the leaderboard is user 2 (rank 1), user 3
(rank 2), user 1 (rank 3), user 4 (rank 4); the zero-point participant is
absent; and the tie between users 2 and 3 is resolved by join order via the
stability clause of `getLeaderboard_correct`. -/
theorem getLeaderboard_correct_witness :
    (getLeaderboard exampleLeague).map (fun e => (e.userId, e.rank)) =
        [(2, 1), (3, 2), (1, 3), (4, 4)]
    ∧ [toEntry (exPart 2 "P1" 80), toEntry (exPart 3 "P2" 80)].Sublist
        ((getLeaderboard exampleLeague).map eraseRank) := by
  constructor
  · have hle : ∀ a b : LeaderboardEntry,
        entryLe "points_only" a b = decide (b.points ≤ a.points) := by
      intro a b
      simp [entryLe]
    simp only [getLeaderboard, exampleLeague, exPart, exScore, toEntry]
    norm_num [List.mergeSort, List.splitInTwo, List.merge, hle, assignRanks, toEntry,
      exPart, exScore]
  · refine (getLeaderboard_correct exampleLeague).2.2.2 _ _ ?_ ?_
    · show [toEntry (exPart 2 "P1" 80), toEntry (exPart 3 "P2" 80)].Sublist
        [toEntry (exPart 1 "Fifty" 50), toEntry (exPart 2 "P1" 80),
          toEntry (exPart 3 "P2" 80), toEntry (exPart 4 "Thirty" 30)]
      exact ((((List.nil_sublist _).cons₂ _).cons₂ _).cons _)
    · simp [specSameKeys, exampleLeague, toEntry, exPart, exScore]

/-- In-place mutation of the first roster entry with the given user id, as
performed on the participant object returned by `participants.find(...)`. -/
def updateFirst (uid : Nat) (q : Participant) : List Participant → List Participant
  | [] => []
  | p :: ps => if p.userId = uid then q :: ps else p :: updateFirst uid q ps

/-- `leagueSchema.methods.submitScore`: find the participant, reject when the
submission limit is reached or the league is not active, otherwise append the
score to the history and replace the best submission when the cached best has
no points (`!participant.bestSubmission.points`, i.e. `points` is zero) or
the new score wins under `isBetterScore`.  `now` stands for `new Date()` and
a thrown `Error` becomes `Except.error` of its message. -/
def submitScore (l : League) (userId : Nat) (scoreData : GameScore) (now : Int) :
    Except String League :=
  match l.participants.find? (fun p => p.userId = userId) with
  | none => Except.error "User not found in league"
  | some participant =>
    if participant.submissions.length ≥ l.maxSubmissions then
      Except.error "Maximum submissions reached"
    else if l.status ≠ "active" then
      Except.error "League is not active"
    else
      let best : GameScore :=
        if participant.bestSubmission.points = 0 ∨
            isBetterScore l.scoringMethod scoreData participant.bestSubmission then
          { scoreData with submittedAt := now }
        else participant.bestSubmission
      let updated : Participant :=
        { participant with
          submissions := participant.submissions ++ [{ scoreData with submittedAt := now }]
          bestSubmission := best }
      Except.ok { l with participants := updateFirst userId updated l.participants }

/-- `submitScore` as its caller observes it: a thrown error leaves the league
document exactly as it was (the TypeScript method performs no mutation before
any of its `throw` statements). -/
def submitScoreRun (l : League) (userId : Nat) (scoreData : GameScore) (now : Int) :
    League × Option String :=
  match submitScore l userId scoreData now with
  | Except.ok l' => (l', none)
  | Except.error e => (l, some e)

/-- C3: a submission by a participant whose submission count has reached
`rules.maxSubmissions` fails with "Maximum submissions reached", and one made
while the league is not active fails with "League is not active" (the limit
check runs first); either rejection leaves the league document — hence the
participant's history and best submission — unchanged. -/
theorem submitScore_rejected (l : League) (uid : Nat) (s : GameScore) (now : Int)
    (p : Participant)
    (hfind : l.participants.find? (fun q => q.userId = uid) = some p) :
    (l.maxSubmissions ≤ p.submissions.length →
      submitScoreRun l uid s now = (l, some "Maximum submissions reached"))
    ∧ (p.submissions.length < l.maxSubmissions → l.status ≠ "active" →
      submitScoreRun l uid s now = (l, some "League is not active")) := by
  constructor
  · intro h
    simp only [submitScoreRun, submitScore, hfind]
    rw [if_pos (show p.submissions.length ≥ l.maxSubmissions from h)]
  · intro h1 h2
    simp only [submitScoreRun, submitScore, hfind]
    rw [if_neg (show ¬p.submissions.length ≥ l.maxSubmissions by omega), if_pos h2]

/-- A participant who has already used all three submissions of
`exLeagueFull`. -/
def pFull : Participant :=
  { userId := 1, username := "U", joinedAt := 0,
    submissions := [exScore 1, exScore 2, exScore 3], bestSubmission := exScore 3 }

/-- An active league with `maxSubmissions = 3` whose sole participant has
already submitted three scores. -/
def exLeagueFull : League :=
  { startDate := 0, endDate := 10, scoringMethod := "accuracy_then_time",
    maxSubmissions := 3, status := "active", category := "general",
    participants := [pFull] }

/-- A completed league whose sole participant has submitted nothing yet. -/
def exLeagueClosed : League :=
  { startDate := 0, endDate := 10, scoringMethod := "accuracy_then_time",
    maxSubmissions := 3, status := "completed", category := "general",
    participants := [{ pFull with submissions := [] }] }

/-- Witness for C3: a 4th submission with `maxSubmissions = 3` is rejected
with the limit error, and a submission to a non-active league is rejected
with the activity error; both leave the league unchanged. -/
theorem submitScore_rejected_witness :
    submitScoreRun exLeagueFull 1 (exScore 10) 5 =
        (exLeagueFull, some "Maximum submissions reached")
    ∧ submitScoreRun exLeagueClosed 1 (exScore 10) 5 =
        (exLeagueClosed, some "League is not active") :=
  ⟨(submitScore_rejected exLeagueFull 1 (exScore 10) 5 pFull (by decide)).1 (by decide),
    (submitScore_rejected exLeagueClosed 1 (exScore 10) 5 { pFull with submissions := [] }
      (by decide)).2 (by decide) (by decide)⟩

/-- C10: whenever the participant's cached best submission has zero points, a
successful `submitScore` installs the new score as the best submission
unconditionally — the `isBetterScore` comparison is short-circuited by
`!participant.bestSubmission.points` — even if the new score is worse on the
scoring method's keys. -/
theorem submitScore_zero_points_replaces (l : League) (uid : Nat) (s : GameScore)
    (now : Int) (p : Participant)
    (hfind : l.participants.find? (fun q => q.userId = uid) = some p)
    (hcnt : p.submissions.length < l.maxSubmissions)
    (hact : l.status = "active")
    (hzero : p.bestSubmission.points = 0) :
    submitScore l uid s now =
      Except.ok
        { l with
          participants :=
            updateFirst uid
              { p with
                submissions := p.submissions ++ [{ s with submittedAt := now }]
                bestSubmission := { s with submittedAt := now } }
              l.participants } := by
  simp only [submitScore, hfind]
  rw [if_neg (show ¬p.submissions.length ≥ l.maxSubmissions by omega),
    if_neg (show ¬l.status ≠ "active" by simp [hact]), if_pos (Or.inl hzero)]

/-- A participant whose best submission has zero points but positive accuracy
and a fast time. -/
def pZero : Participant :=
  { userId := 1, username := "U", joinedAt := 0, submissions := [],
    bestSubmission := { accuracy := 50, timeInSeconds := 10, points := 0, submittedAt := 0 } }

/-- A zero-point score that is strictly worse than `pZero`'s best on both
`accuracy_then_time` keys: lower accuracy and higher time. -/
def badScore : GameScore :=
  { accuracy := 10, timeInSeconds := 99, points := 0, submittedAt := 0 }

/-- An active `accuracy_then_time` league containing `pZero`. -/
def exLeagueZeroBest : League :=
  { startDate := 0, endDate := 10, scoringMethod := "accuracy_then_time",
    maxSubmissions := 3, status := "active", category := "general",
    participants := [pZero] }

/-- Witness for C10: `badScore` loses to `pZero`'s best under
`accuracy_then_time`, yet it replaces the zero-point best submission. -/
theorem submitScore_zero_points_replaces_witness :
    isBetterScore "accuracy_then_time" badScore pZero.bestSubmission = false
    ∧ submitScore exLeagueZeroBest 1 badScore 7 =
        Except.ok
          { exLeagueZeroBest with
            participants :=
              updateFirst 1
                { pZero with
                  submissions := pZero.submissions ++ [{ badScore with submittedAt := 7 }]
                  bestSubmission := { badScore with submittedAt := 7 } }
                exLeagueZeroBest.participants } :=
  ⟨by decide,
    submitScore_zero_points_replaces exLeagueZeroBest 1 badScore 7 pZero (by decide)
      (by decide) (by decide) (by decide)⟩

/-- The `leagueSchema.pre("save")` middleware: with `now` the wall clock, keep
"upcoming" before the window, set "active" inside the window unless the
status is "completed", set "completed" at or after the end unless the status
is already "completed", and otherwise leave the status alone. -/
def preSaveStatus (l : League) (now : Int) : String :=
  if l.startDate > now ∧ l.status = "upcoming" then l.status
  else if l.startDate ≤ now ∧ l.endDate > now ∧ l.status ≠ "completed" then "active"
  else if l.endDate ≤ now ∧ l.status ≠ "completed" then "completed"
  else l.status

/-- The status the claim derives from the clock alone: "upcoming" before
`startDate`, "active" inside `[startDate, endDate)`, "completed" at or after
`endDate`.  Transcribed from the claim's words, to be compared with
`preSaveStatus`. -/
def specDerivedStatus (l : League) (now : Int) : String :=
  if now < l.startDate then "upcoming"
  else if now < l.endDate then "active"
  else "completed"

/-- A cancelled league whose window is `[0, 10)`. -/
def cancelledLeague : League :=
  { startDate := 0, endDate := 10, scoringMethod := "points_only",
    maxSubmissions := 3, status := "cancelled", category := "general",
    participants := [] }

/-- Counterexample to C8: the pre-save hook only preserves the "completed"
status, not "cancelled" — saving a cancelled league during its window
overwrites its status with "active". -/
theorem preSaveStatus_cancelled_overwritten :
    preSaveStatus cancelledLeague 5 = "active"
    ∧ preSaveStatus cancelledLeague 5 ≠ cancelledLeague.status := by
  constructor
  · rfl
  · decide

/-- C8 amended: for a league whose window is well-formed (start ≤ end), the
saved status is the time-derived value once the window has started, with
"completed" the only sticky status; before `startDate` the current status —
"upcoming", but also "cancelled" or a stale "active" — is left unchanged.
In particular a cancelled league is set to "active" during its window and to
"completed" after it. -/
theorem preSaveStatus_correct (l : League) (now : Int)
    (hw : l.startDate ≤ l.endDate) :
    preSaveStatus l now =
      if l.status = "completed" then "completed"
      else if now < l.startDate then l.status
      else specDerivedStatus l now := by
  unfold preSaveStatus specDerivedStatus
  split_ifs <;> simp_all <;> omega

/-- Witness for the amended C8 at a concrete input: the cancelled league of
the counterexample, saved at time 5, follows the amended characterisation. -/
theorem preSaveStatus_correct_witness :
    preSaveStatus cancelledLeague 5 =
      (if cancelledLeague.status = "completed" then "completed"
       else if (5 : Int) < cancelledLeague.startDate then cancelledLeague.status
       else specDerivedStatus cancelledLeague 5) :=
  preSaveStatus_correct cancelledLeague 5 (by decide)

/-- A top-performer record in a snapshot (`UserPerformance` /
`UserPerformanceSchema`): identity and display fields, the aggregated totals
and (rounded) means, the last-active timestamp, the overall rank, and the
per-subject rank mapping attached only for the global scope. -/
structure Performer where
  userId : Nat
  username : String
  email : String
  totalPoints : Int
  accuracy : Int
  totalSubmissions : ℚ
  averageTime : Int
  lastActive : Int
  rank : Nat
  subjectRanks : List (String × Nat)
  deriving Repr, DecidableEq

/-- The value returned by `generateLeaderboardData`: the aggregate block that
a snapshot run writes into a snapshot record. -/
structure LeaderboardData where
  totalUsers : Nat
  topPerformers : List Performer
  averageAccuracy : Int
  averagePoints : Int
  totalSubmissions : ℚ
  deriving Repr, DecidableEq

/-- A stored `LeaderboardSnapshot` document: its `(date, scope)` key, the
aggregate fields, and the `updatedAt` timestamp maintained on writes. -/
structure SnapshotDoc where
  date : Int
  scope : String
  totalUsers : Nat
  topPerformers : List Performer
  averageAccuracy : Int
  averagePoints : Int
  totalSubmissions : ℚ
  updatedAt : Int
  deriving Repr, DecidableEq

/-- The `(date, scope)` match condition of
`LeaderboardSnapshot.findOne({ date: today, scope })`. -/
def snapKey (date : Int) (scope : String) (s : SnapshotDoc) : Bool :=
  s.date = date ∧ s.scope = scope

/-- `updateExistingSnapshot`: overwrite the five aggregate fields of an
existing snapshot document in place and refresh `updatedAt`. -/
def overwriteSnap (d : LeaderboardData) (now : Int) (s : SnapshotDoc) : SnapshotDoc :=
  { s with
    totalUsers := d.totalUsers
    topPerformers := d.topPerformers
    averageAccuracy := d.averageAccuracy
    averagePoints := d.averagePoints
    totalSubmissions := d.totalSubmissions
    updatedAt := now }

/-- `createNewSnapshot`: a fresh snapshot document for `(date, scope)`. -/
def mkSnapshot (date : Int) (scope : String) (d : LeaderboardData) (now : Int) :
    SnapshotDoc :=
  { date := date
    scope := scope
    totalUsers := d.totalUsers
    topPerformers := d.topPerformers
    averageAccuracy := d.averageAccuracy
    averagePoints := d.averagePoints
    totalSubmissions := d.totalSubmissions
    updatedAt := now }

/-- Saving a mutated document found by `findOne`: replace the first document
matching `p` by its updated version, leaving everything else in place. -/
def updateFirstWith (p : SnapshotDoc → Bool) (f : SnapshotDoc → SnapshotDoc) :
    List SnapshotDoc → List SnapshotDoc
  | [] => []
  | s :: ss => if p s then f s :: ss else s :: updateFirstWith p f ss

/-- One iteration of the scope loop of `executeDailySnapshotCreation` acting
on the snapshot collection: if a snapshot for `(today, scope)` exists, update
it in place, otherwise insert a new one (a saved new document is appended to
the collection). -/
def processScope (today : Int) (scope : String) (d : LeaderboardData) (now : Int)
    (store : List SnapshotDoc) : List SnapshotDoc :=
  match store.find? (snapKey today scope) with
  | some _ => updateFirstWith (snapKey today scope) (overwriteSnap d now) store
  | none => store ++ [mkSnapshot today scope d now]

/-- Milliseconds per day; `cutoffDate.setDate(cutoffDate.getDate() - 90)` on a
UTC clock moves the cutoff back exactly 90 of these. -/
def msPerDay : Int := 86400000

/-- `cleanupOldSnapshots`: `deleteMany({ date: { $lt: cutoff } })` with the
cutoff 90 days before `now` — every document dated strictly before the
cutoff is removed, the rest are kept. -/
def cleanupOldSnapshots (now : Int) (store : List SnapshotDoc) : List SnapshotDoc :=
  store.filter (fun s => decide (¬ s.date < now - 90 * msPerDay))

/-- The `action` recorded per scope in a run's `results` list. -/
inductive ScopeAction where
  | created : ScopeAction
  | updated : ScopeAction
  | failed : String → ScopeAction
  deriving Repr, DecidableEq

/-- The scope list of `executeDailySnapshotCreation`. -/
def snapshotScopes : List String := ["global", "math", "science", "english"]

/-- The scope loop of `executeDailySnapshotCreation`.  The per-scope data
generation (`generateLeaderboardData`, a database aggregation that can throw)
is passed in as `gen`; a `gen` error models the exception caught by the
per-scope `try`/`catch`, which records a `failed` result for that scope and
leaves the collection untouched, while the loop continues with the remaining
scopes. -/
def runScopes (gen : String → Except String LeaderboardData) (today now : Int) :
    List String → List SnapshotDoc → List SnapshotDoc × List (String × ScopeAction)
  | [], store => (store, [])
  | scope :: rest, store =>
    let step : Except String (List SnapshotDoc × ScopeAction) :=
      match store.find? (snapKey today scope) with
      | some _ =>
        (gen scope).map fun d =>
          (updateFirstWith (snapKey today scope) (overwriteSnap d now) store,
            ScopeAction.updated)
      | none =>
        (gen scope).map fun d =>
          (store ++ [mkSnapshot today scope d now], ScopeAction.created)
    match step with
    | Except.error e =>
      let pr := runScopes gen today now rest store
      (pr.1, (scope, ScopeAction.failed e) :: pr.2)
    | Except.ok (store', act) =>
      let pr := runScopes gen today now rest store'
      (pr.1, (scope, act) :: pr.2)

/-- The mutable state of the `SnapshotJobService` singleton that the claims
observe: the `isRunning` flag and the snapshot collection. -/
structure RunState where
  isRunning : Bool
  store : List SnapshotDoc
  deriving Repr, DecidableEq

/-- `executeDailySnapshotCreation`: skip immediately when a run is already in
progress; otherwise set the flag, process every scope with per-scope error
recovery, clean up snapshots past the retention horizon, and clear the flag
in the `finally` block.  `today` is the run date truncated to midnight and
`now` the wall clock; the returned option is the `results` summary (`none`
for a skipped invocation). -/
def executeDailySnapshotCreation (gen : String → Except String LeaderboardData)
    (today now : Int) (st : RunState) : RunState × Option (List (String × ScopeAction)) :=
  if st.isRunning then (st, none)
  else
    let pr := runScopes gen today now snapshotScopes st.store
    ({ isRunning := false, store := cleanupOldSnapshots now pr.1 }, some pr.2)

/-- `triggerManualSnapshot`: a manual trigger checks the same `isRunning`
flag and otherwise defers to `executeDailySnapshotCreation`. -/
def triggerManualSnapshot (gen : String → Except String LeaderboardData)
    (today now : Int) (st : RunState) : RunState × Option (List (String × ScopeAction)) :=
  if st.isRunning then (st, none)
  else executeDailySnapshotCreation gen today now st

/-- C6: an invocation of the snapshot run — scheduled or manual — made while
the `isRunning` flag is set returns immediately, leaving the collection (and
all state) untouched and reporting no results; an invocation that actually
runs finishes with the flag cleared (the `finally` clears it on success and
failure alike — per-scope failures are covered because `gen` is arbitrary)
and produces a results summary. -/
theorem snapshot_run_exclusive (gen : String → Except String LeaderboardData)
    (today now : Int) (st : RunState) :
    (st.isRunning = true →
      executeDailySnapshotCreation gen today now st = (st, none)
      ∧ triggerManualSnapshot gen today now st = (st, none))
    ∧ (st.isRunning = false →
      (executeDailySnapshotCreation gen today now st).1.isRunning = false
      ∧ ∃ res, (executeDailySnapshotCreation gen today now st).2 = some res) := by
  constructor
  · intro h
    constructor
    · unfold executeDailySnapshotCreation
      rw [if_pos h]
    · unfold triggerManualSnapshot
      rw [if_pos h]
  · intro h
    constructor
    · unfold executeDailySnapshotCreation
      rw [if_neg (by simp [h])]
    · unfold executeDailySnapshotCreation
      rw [if_neg (by simp [h])]
      exact ⟨_, rfl⟩

/-- A data generator that fails for every scope, standing for a database
aggregation error during a run. -/
def genFail : String → Except String LeaderboardData :=
  fun _ => Except.error "aggregation failed"

/-- Witness for C6: with a failing generator, an invocation on a running
state is a no-op, and an invocation on an idle state ends with the flag
cleared. -/
theorem snapshot_run_exclusive_witness :
    executeDailySnapshotCreation genFail 0 0 { isRunning := true, store := [] } =
        ({ isRunning := true, store := [] }, none)
    ∧ (executeDailySnapshotCreation genFail 0 0 { isRunning := false, store := [] }).1.isRunning
        = false :=
  ⟨((snapshot_run_exclusive genFail 0 0 { isRunning := true, store := [] }).1 rfl).1,
    ((snapshot_run_exclusive genFail 0 0 { isRunning := false, store := [] }).2 rfl).1⟩

theorem runScopes_results (gen : String → Except String LeaderboardData)
    (today now : Int) :
    ∀ (scopes : List String) (store : List SnapshotDoc),
      ((runScopes gen today now scopes store).2.map Prod.fst = scopes)
      ∧ (∀ sc e, sc ∈ scopes → gen sc = Except.error e →
          (sc, ScopeAction.failed e) ∈ (runScopes gen today now scopes store).2)
      ∧ (∀ sc d, sc ∈ scopes → gen sc = Except.ok d →
          ∃ a, (sc, a) ∈ (runScopes gen today now scopes store).2 ∧
            ∀ e, a ≠ ScopeAction.failed e) := by
  intro scopes
  induction scopes with
  | nil =>
    intro store
    refine ⟨rfl, ?_, ?_⟩
    · intro sc e hsc
      cases hsc
    · intro sc d hsc
      cases hsc
  | cons s rest ih =>
    intro store
    rcases hg : gen s with e | d
    · have hrun : runScopes gen today now (s :: rest) store =
          ((runScopes gen today now rest store).1,
            (s, ScopeAction.failed e) :: (runScopes gen today now rest store).2) := by
        simp only [runScopes]
        cases hf : store.find? (snapKey today s) <;> simp [hg, hf, Except.map]
      refine ⟨?_, ?_, ?_⟩
      · rw [hrun]
        simp [(ih store).1]
      · intro sc e' hsc hge
        rw [hrun]
        rcases List.mem_cons.mp hsc with h | h
        · subst h
          rw [hg] at hge
          injection hge with h'
          subst h'
          exact List.mem_cons_self _ _
        · exact List.mem_cons_of_mem _ ((ih store).2.1 sc e' h hge)
      · intro sc d' hsc hge
        rw [hrun]
        rcases List.mem_cons.mp hsc with h | h
        · subst h
          rw [hg] at hge
          cases hge
        · obtain ⟨a, ha, hna⟩ := (ih store).2.2 sc d' h hge
          exact ⟨a, List.mem_cons_of_mem _ ha, hna⟩
    · have H : ∃ store' act, (∀ e, act ≠ ScopeAction.failed e) ∧
          runScopes gen today now (s :: rest) store =
            ((runScopes gen today now rest store').1,
              (s, act) :: (runScopes gen today now rest store').2) := by
        cases hf : store.find? (snapKey today s) with
        | some r =>
          refine ⟨updateFirstWith (snapKey today s) (overwriteSnap d now) store,
            ScopeAction.updated, ?_, ?_⟩
          · intro e h
            cases h
          · simp only [runScopes]
            simp [hg, hf, Except.map]
        | none =>
          refine ⟨store ++ [mkSnapshot today s d now], ScopeAction.created, ?_, ?_⟩
          · intro e h
            cases h
          · simp only [runScopes]
            simp [hg, hf, Except.map]
      obtain ⟨store', act, hact, hrun⟩ := H
      refine ⟨?_, ?_, ?_⟩
      · rw [hrun]
        simp [(ih store').1]
      · intro sc e' hsc hge
        rw [hrun]
        rcases List.mem_cons.mp hsc with h | h
        · subst h
          rw [hg] at hge
          cases hge
        · exact List.mem_cons_of_mem _ ((ih store').2.1 sc e' h hge)
      · intro sc d' hsc hge
        rw [hrun]
        rcases List.mem_cons.mp hsc with h | h
        · subst h
          exact ⟨act, List.mem_cons_self _ _, hact⟩
        · obtain ⟨a, ha, hna⟩ := (ih store').2.2 sc d' h hge
          exact ⟨a, List.mem_cons_of_mem _ ha, hna⟩

/-- C7: a run over the scopes global/math/science/english catches an error
raised while processing any one scope inside the loop: the run still returns
a results summary (it does not throw), every scope — including those after a
failed one — contributes exactly one entry, in order; a failed scope is
recorded as `failed` with its error message, and a successfully aggregated
scope is recorded with a non-failure action. -/
theorem snapshot_scope_failure_contained (gen : String → Except String LeaderboardData)
    (today now : Int) (st : RunState) (h : st.isRunning = false) :
    ∃ res, (executeDailySnapshotCreation gen today now st).2 = some res
      ∧ res.map Prod.fst = snapshotScopes
      ∧ (∀ sc e, sc ∈ snapshotScopes → gen sc = Except.error e →
          (sc, ScopeAction.failed e) ∈ res)
      ∧ (∀ sc d, sc ∈ snapshotScopes → gen sc = Except.ok d →
          ∃ a, (sc, a) ∈ res ∧ ∀ e, a ≠ ScopeAction.failed e) := by
  unfold executeDailySnapshotCreation
  rw [if_neg (by simp [h])]
  refine ⟨_, rfl, ?_, ?_, ?_⟩
  · exact (runScopes_results gen today now snapshotScopes st.store).1
  · exact (runScopes_results gen today now snapshotScopes st.store).2.1
  · exact (runScopes_results gen today now snapshotScopes st.store).2.2

/-- An empty aggregate block, as produced for a scope with no active
leagues. -/
def emptyData : LeaderboardData :=
  { totalUsers := 0, topPerformers := [], averageAccuracy := 0, averagePoints := 0,
    totalSubmissions := 0 }

/-- A generator that throws only while processing the "math" scope. -/
def genMathFails : String → Except String LeaderboardData :=
  fun sc => if sc = "math" then Except.error "boom" else Except.ok emptyData

/-- Witness for C7: with a generator failing exactly on "math", the run still
reports one entry per scope in order, with "math" marked failed. -/
theorem snapshot_scope_failure_contained_witness :
    ∃ res,
      (executeDailySnapshotCreation genMathFails 0 0
        { isRunning := false, store := [] }).2 = some res
      ∧ ("math", ScopeAction.failed "boom") ∈ res
      ∧ res.map Prod.fst = snapshotScopes := by
  obtain ⟨res, h1, h2, h3, h4⟩ :=
    snapshot_scope_failure_contained genMathFails 0 0 { isRunning := false, store := [] } rfl
  exact ⟨res, h1, h3 "math" "boom" (by decide) rfl, h2⟩

/-- C9: cleanup with the 90-day horizon keeps a stored snapshot exactly when
it is not dated strictly more than 90 days before `now`, and the collection a
completed run leaves behind contains no snapshot past the horizon. -/
theorem cleanup_retention (now today : Int) (store : List SnapshotDoc)
    (gen : String → Except String LeaderboardData) (st : RunState) :
    (∀ s ∈ store,
      s ∈ cleanupOldSnapshots now store ↔ ¬ s.date < now - 90 * msPerDay)
    ∧ (st.isRunning = false →
      ∀ s ∈ (executeDailySnapshotCreation gen today now st).1.store,
        ¬ s.date < now - 90 * msPerDay) := by
  constructor
  · intro s hs
    simp [cleanupOldSnapshots, List.mem_filter, hs]
  · intro h s hsm
    unfold executeDailySnapshotCreation at hsm
    rw [if_neg (by simp [h])] at hsm
    simp only at hsm
    have := (List.mem_filter.mp hsm).2
    simpa using this

/-- A snapshot for the global scope dated `d`, with empty aggregates. -/
def snapAt (d : Int) : SnapshotDoc :=
  { date := d, scope := "global", totalUsers := 0, topPerformers := [],
    averageAccuracy := 0, averagePoints := 0, totalSubmissions := 0, updatedAt := 0 }

/-- Witness for C9: with `now = 0`, a snapshot dated 91 days earlier is
purged by cleanup while one dated 89 days earlier is retained. -/
theorem cleanup_retention_witness :
    snapAt (-89 * msPerDay) ∈
        cleanupOldSnapshots 0 [snapAt (-91 * msPerDay), snapAt (-89 * msPerDay)]
    ∧ snapAt (-91 * msPerDay) ∉
        cleanupOldSnapshots 0 [snapAt (-91 * msPerDay), snapAt (-89 * msPerDay)] := by
  have h := (cleanup_retention 0 0 [snapAt (-91 * msPerDay), snapAt (-89 * msPerDay)]
    genFail { isRunning := false, store := [] }).1
  constructor
  · exact (h _ (by decide)).mpr (by decide)
  · exact fun hmem => ((h _ (by decide)).mp hmem) (by decide)

/-- At most one stored snapshot per `(date, scope)` pair. -/
def uniquePerKey (store : List SnapshotDoc) : Prop :=
  ∀ (d : Int) (sc : String), store.countP (snapKey d sc) ≤ 1

/-- The five aggregate fields a snapshot record carries. -/
def snapData (s : SnapshotDoc) : Nat × List Performer × Int × Int × ℚ :=
  (s.totalUsers, s.topPerformers, s.averageAccuracy, s.averagePoints, s.totalSubmissions)

theorem snapKey_overwrite (d : LeaderboardData) (now : Int) (dd : Int) (scc : String)
    (s : SnapshotDoc) : snapKey dd scc (overwriteSnap d now s) = snapKey dd scc s := rfl

theorem countP_updateFirstWith (p : SnapshotDoc → Bool) (f : SnapshotDoc → SnapshotDoc)
    (q : SnapshotDoc → Bool) (hf : ∀ s, q (f s) = q s) :
    ∀ l : List SnapshotDoc, (updateFirstWith p f l).countP q = l.countP q := by
  intro l
  induction l with
  | nil => rfl
  | cons s ss ih =>
    by_cases hp : p s
    · simp [updateFirstWith, hp, List.countP_cons, hf]
    · simp [updateFirstWith, hp, List.countP_cons, ih]

theorem countP_filter_le (p q : SnapshotDoc → Bool) :
    ∀ l : List SnapshotDoc, (l.filter q).countP p ≤ l.countP p := by
  intro l
  induction l with
  | nil => exact Nat.le.refl
  | cons s ss ih =>
    rw [List.filter_cons, List.countP_cons]
    by_cases hq : q s
    · rw [if_pos hq, List.countP_cons]
      by_cases hp : p s
      · rw [if_pos hp]
        omega
      · rw [if_neg hp]
        omega
    · rw [if_neg hq]
      by_cases hp : p s
      · rw [if_pos hp]
        omega
      · rw [if_neg hp]
        omega

theorem snapKey_mkSnapshot (today : Int) (sc : String) (d : LeaderboardData) (now : Int)
    (dd : Int) (scc : String) :
    snapKey dd scc (mkSnapshot today sc d now) = true ↔ dd = today ∧ scc = sc := by
  unfold snapKey mkSnapshot
  simp only [decide_eq_true_eq]
  constructor
  · rintro ⟨h1, h2⟩
    exact ⟨h1.symm, h2.symm⟩
  · rintro ⟨h1, h2⟩
    exact ⟨h1.symm, h2.symm⟩

theorem uniquePerKey_processScope (today : Int) (sc : String) (d : LeaderboardData)
    (now : Int) (store : List SnapshotDoc) (h : uniquePerKey store) :
    uniquePerKey (processScope today sc d now store) := by
  intro dd scc
  unfold processScope
  cases hf : store.find? (snapKey today sc) with
  | some r =>
    rw [countP_updateFirstWith _ _ _ (fun s => snapKey_overwrite d now dd scc s)]
    exact h dd scc
  | none =>
    rw [List.countP_append]
    by_cases hk : snapKey dd scc (mkSnapshot today sc d now) = true
    · obtain ⟨h1, h2⟩ := (snapKey_mkSnapshot today sc d now dd scc).mp hk
      subst h1
      subst h2
      have h0 : store.countP (snapKey dd scc) = 0 := by
        rw [List.countP_eq_zero]
        exact List.find?_eq_none.mp hf
      rw [h0, List.countP_cons, if_pos hk, List.countP_nil]
    · have h1 : List.countP (snapKey dd scc) [mkSnapshot today sc d now] = 0 := by
        simp [List.countP_cons, hk]
      rw [h1]
      simpa using h dd scc

theorem uniquePerKey_runScopes (gen : String → Except String LeaderboardData)
    (today now : Int) :
    ∀ (scopes : List String) (store : List SnapshotDoc), uniquePerKey store →
      uniquePerKey (runScopes gen today now scopes store).1 := by
  intro scopes
  induction scopes with
  | nil => exact fun store h => h
  | cons s rest ih =>
    intro store h
    rcases hg : gen s with e | d
    · have heq : (runScopes gen today now (s :: rest) store).1 =
          (runScopes gen today now rest store).1 := by
        simp only [runScopes]
        cases hf : store.find? (snapKey today s) <;> simp [hg, hf, Except.map]
      rw [heq]
      exact ih store h
    · have heq : (runScopes gen today now (s :: rest) store).1 =
          (runScopes gen today now rest (processScope today s d now store)).1 := by
        simp only [runScopes, processScope]
        cases hf : store.find? (snapKey today s) <;> simp [hg, hf, Except.map]
      rw [heq]
      exact ih _ (uniquePerKey_processScope today s d now store h)

theorem find?_eq_head?_filter (p : SnapshotDoc → Bool) :
    ∀ l : List SnapshotDoc, l.find? p = (l.filter p).head? := by
  intro l
  induction l with
  | nil => rfl
  | cons s ss ih =>
    by_cases hp : p s
    · rw [List.find?_cons_of_pos _ hp, List.filter_cons, if_pos hp]
      rfl
    · rw [List.find?_cons_of_neg _ hp, List.filter_cons, if_neg hp]
      exact ih

theorem filter_updateFirstWith_single (p : SnapshotDoc → Bool) (f : SnapshotDoc → SnapshotDoc)
    (hf : ∀ s, p (f s) = p s) :
    ∀ (l : List SnapshotDoc) (r : SnapshotDoc), l.find? p = some r → l.countP p ≤ 1 →
      (updateFirstWith p f l).filter p = [f r] := by
  intro l
  induction l with
  | nil =>
    intro r hr
    cases hr
  | cons s ss ih =>
    intro r hr hc
    by_cases hp : p s
    · rw [List.find?_cons_of_pos _ hp] at hr
      injection hr with hr
      subst hr
      have hc0 : ss.countP p = 0 := by
        rw [List.countP_cons, if_pos hp] at hc
        omega
      have hnil : ss.filter p = [] := by
        rw [List.filter_eq_nil_iff]
        intro a ha
        have h2 := List.countP_eq_zero.mp hc0
        simpa using h2 a ha
      have hup : updateFirstWith p f (s :: ss) = f s :: ss := by
        simp [updateFirstWith, hp]
      rw [hup, List.filter_cons, hf, if_pos hp, hnil]
    · rw [List.find?_cons_of_neg _ hp] at hr
      rw [List.countP_cons, if_neg hp] at hc
      have hrec := ih r hr (by omega)
      have hup : updateFirstWith p f (s :: ss) = s :: updateFirstWith p f ss := by
        simp [updateFirstWith, hp]
      rw [hup, List.filter_cons, if_neg hp, hrec]

theorem filter_processScope_key (today : Int) (sc : String) (d : LeaderboardData)
    (now : Int) (store : List SnapshotDoc) (h : store.countP (snapKey today sc) ≤ 1) :
    (processScope today sc d now store).filter (snapKey today sc) =
      [match store.find? (snapKey today sc) with
       | some r => overwriteSnap d now r
       | none => mkSnapshot today sc d now] := by
  unfold processScope
  cases hf : store.find? (snapKey today sc) with
  | some r =>
    exact filter_updateFirstWith_single _ _ (fun s => snapKey_overwrite d now today sc s)
      store r hf h
  | none =>
    have hnil : store.filter (snapKey today sc) = [] := by
      rw [List.filter_eq_nil_iff]
      exact List.find?_eq_none.mp hf
    rw [List.filter_append, hnil]
    simp [(snapKey_mkSnapshot today sc d now today sc).mpr ⟨rfl, rfl⟩]

/-- C4: the snapshot upsert keeps at most one record per `(date, scope)` pair
— one scope step preserves the invariant and so does a whole run — and
running the same scope twice on the same date leaves exactly one record for
that key, carrying the later run's aggregate data. -/
theorem snapshot_upsert_idempotent (gen : String → Except String LeaderboardData)
    (today now1 now2 : Int) (sc : String) (d1 d2 : LeaderboardData)
    (store : List SnapshotDoc) (st : RunState) :
    (uniquePerKey store → uniquePerKey (processScope today sc d1 now1 store))
    ∧ (uniquePerKey st.store →
        uniquePerKey (executeDailySnapshotCreation gen today now1 st).1.store)
    ∧ (uniquePerKey store →
        ((processScope today sc d2 now2 (processScope today sc d1 now1 store)).filter
            (snapKey today sc)).map snapData =
          [(d2.totalUsers, d2.topPerformers, d2.averageAccuracy, d2.averagePoints,
            d2.totalSubmissions)]) := by
  refine ⟨fun h => uniquePerKey_processScope today sc d1 now1 store h, ?_, ?_⟩
  · intro h
    unfold executeDailySnapshotCreation
    by_cases hr : st.isRunning
    · rw [if_pos hr]
      exact h
    · rw [if_neg hr]
      intro dd scc
      exact le_trans (countP_filter_le _ _ _)
        (uniquePerKey_runScopes gen today now1 snapshotScopes st.store h dd scc)
  · intro h
    have h1 : (processScope today sc d1 now1 store).filter (snapKey today sc) =
        [match store.find? (snapKey today sc) with
         | some r => overwriteSnap d1 now1 r
         | none => mkSnapshot today sc d1 now1] :=
      filter_processScope_key today sc d1 now1 store (h today sc)
    have hcount : (processScope today sc d1 now1 store).countP (snapKey today sc) ≤ 1 :=
      uniquePerKey_processScope today sc d1 now1 store h today sc
    have h2 : (processScope today sc d2 now2
        (processScope today sc d1 now1 store)).filter (snapKey today sc) =
        [overwriteSnap d2 now2
          (match store.find? (snapKey today sc) with
           | some r => overwriteSnap d1 now1 r
           | none => mkSnapshot today sc d1 now1)] := by
      rw [filter_processScope_key today sc d2 now2 _ hcount,
        find?_eq_head?_filter, h1]
      cases store.find? (snapKey today sc) <;> rfl
    rw [h2]
    cases store.find? (snapKey today sc) <;> rfl

/-- A second, distinguishable aggregate block for the idempotence witness. -/
def dataSeven : LeaderboardData :=
  { totalUsers := 7, topPerformers := [], averageAccuracy := 3, averagePoints := 4,
    totalSubmissions := 5 }

/-- Witness for C4: creating a snapshot for (date 0, "global") and then
upserting it again leaves exactly one matching record, holding the second
run's data. -/
theorem snapshot_upsert_idempotent_witness :
    ((processScope 0 "global" dataSeven 2 (processScope 0 "global" emptyData 1 [])).filter
        (snapKey 0 "global")).map snapData =
      [(dataSeven.totalUsers, dataSeven.topPerformers, dataSeven.averageAccuracy,
        dataSeven.averagePoints, dataSeven.totalSubmissions)] :=
  (snapshot_upsert_idempotent genFail 0 1 2 "global" emptyData dataSeven []
    { isRunning := false, store := [] }).2.2 (by intro d sc; simp)

/-- A user document as the `$lookup` against the `users` collection sees it. -/
structure UserDoc where
  uid : Nat
  username : String
  email : String
  deriving Repr, DecidableEq

/-- The distinct group keys of a stream in order of first appearance. -/
def dedupFirst : List Nat → List Nat
  | [] => []
  | k :: ks => k :: (dedupFirst ks).filter (fun q => q ≠ k)

/-- JavaScript's `Math.round`: round half towards positive infinity. -/
def jsRound (q : ℚ) : Int := ⌊q + 1 / 2⌋

/-- The value at the `subject` path of a stored league document.
`leagueSchema` (strict mode) defines no `subject` field — its tag field is
`category` — and no code in the repository writes a league with one (the
only league writers go through this schema; the mock league objects in the
alternative server entry point live in memory and are never persisted), so
the path is missing on every stored document. -/
def docSubject (_l : League) : Option String := none

/-- The value at the `bestScore.points` path of a stored participant:
`leagueParticipantSchema` names the cached best submission `bestSubmission`,
not `bestScore`, so the path the pipeline reads is missing on every stored
document. -/
def bestScorePoints (_p : Participant) : Option ℚ := none

/-- The value at `bestScore.accuracy`: missing, as for `bestScore.points`. -/
def bestScoreAccuracy (_p : Participant) : Option ℚ := none

/-- The value at `bestScore.timeInSeconds`: missing, as for
`bestScore.points`. -/
def bestScoreTime (_p : Participant) : Option ℚ := none

/-- The value at the `submissionCount` path of a stored participant: the
schema stores the `submissions` array and no count field, so the path is
missing. -/
def submissionCount (_p : Participant) : Option ℚ := none

/-- The value at the `lastSubmission` path of a stored participant: no such
field exists in the schema, so the path is missing. -/
def lastSubmission (_p : Participant) : Option Int := none

/-- MongoDB `$sum` over the values found at a path: missing values are
ignored and an empty collection sums to 0. -/
def mongoSum (vals : List (Option ℚ)) : ℚ :=
  (vals.filterMap id).sum

/-- MongoDB `$max` over the values found at a path: null when no value is
present. -/
def mongoMax (vals : List (Option Int)) : Option Int :=
  (vals.filterMap id).max?

/-- MongoDB `$avg` over the values found at a path: the mean of the present
values, null when there are none. -/
def mongoAvg (vals : List (Option ℚ)) : Option ℚ :=
  if (vals.filterMap id).length = 0 then none
  else some ((vals.filterMap id).sum / ((vals.filterMap id).length : ℚ))

/-- The `$match` stage of `generateLeaderboardData` against stored league
documents: `status: "active"`, plus `subject: scope` for every scope other
than "global".  An equality condition on a missing path matches only a null
query value, and the scopes are non-null strings, so the subject clause
matches no stored document. -/
def pipelineMatch (scope : String) (l : League) : Bool :=
  if scope = "global" then l.status = "active"
  else l.status = "active" ∧ docSubject l = some scope

/-- `$match` followed by `$unwind: "$participants"` over the stored
collection: the participant entries of the matched leagues in order. -/
def pipelineStream (scope : String) (leagues : List League) : List Participant :=
  (leagues.filter (pipelineMatch scope)).flatMap (fun l => l.participants)

/-- `$lookup` of `users` on `participants.userId = _id` followed by
`$unwind: "$userInfo"`: each entry paired with every matching user document;
entries with no matching user are dropped. -/
def pipelineLookup (users : List UserDoc) (stream : List Participant) :
    List (Participant × UserDoc) :=
  stream.flatMap (fun p => (users.filter (fun u => u.uid = p.userId)).map (fun u => (p, u)))

/-- The output of the `$group` stage (before `$addFields`): per-user `$first`
of the user display fields, the `$sum`s over `bestScore.points`,
`submissionCount`, `bestScore.accuracy` and `bestScore.timeInSeconds`, the
`$sum: 1` league count, and the `$max` of `lastSubmission`. -/
structure PipelineRow where
  userId : Nat
  username : String
  email : String
  totalPoints : ℚ
  totalSubmissions : ℚ
  accuracySum : ℚ
  timeSum : ℚ
  leagueCount : ℚ
  lastActive : Option Int
  deriving Repr, DecidableEq

/-- The `$group` accumulators over one key's entries, each `$sum`/`$max`
ranging over the path the pipeline names on the stored documents. -/
def pipelineAggregate (k : Nat) (entries : List (Participant × UserDoc)) : PipelineRow :=
  { userId := k
    username := ((entries.head?).map (fun e => e.2.username)).getD ""
    email := ((entries.head?).map (fun e => e.2.email)).getD ""
    totalPoints := mongoSum (entries.map (fun e => bestScorePoints e.1))
    totalSubmissions := mongoSum (entries.map (fun e => submissionCount e.1))
    accuracySum := mongoSum (entries.map (fun e => bestScoreAccuracy e.1))
    timeSum := mongoSum (entries.map (fun e => bestScoreTime e.1))
    leagueCount := entries.length
    lastActive := mongoMax (entries.map (fun e => lastSubmission e.1)) }

/-- The `$group` stage: one row per distinct `participants.userId`. -/
def pipelineRows (stream : List (Participant × UserDoc)) : List PipelineRow :=
  (dedupFirst (stream.map (fun e => e.1.userId))).map
    (fun k => pipelineAggregate k (stream.filter (fun e => e.1.userId = k)))

/-- `$addFields: averageAccuracy = accuracySum / leagueCount`. -/
def pipelineAvgAcc (r : PipelineRow) : ℚ := r.accuracySum / r.leagueCount

/-- `$addFields: averageTime = timeSum / leagueCount`. -/
def pipelineAvgTime (r : PipelineRow) : ℚ := r.timeSum / r.leagueCount

/-- The comparator of
`$sort: { totalPoints: -1, averageAccuracy: -1, averageTime: 1 }`: `a` may be
placed no later than `b`. -/
def pipelineRowLe (a b : PipelineRow) : Bool :=
  decide (a.totalPoints > b.totalPoints ∨ (a.totalPoints = b.totalPoints ∧
    (pipelineAvgAcc a > pipelineAvgAcc b ∨ (pipelineAvgAcc a = pipelineAvgAcc b ∧
      pipelineAvgTime a ≤ pipelineAvgTime b))))

/-- `$sort` then `$limit: 100`. -/
def sortedTopRows (users : List UserDoc) (leagues : List League) (scope : String) :
    List PipelineRow :=
  ((pipelineRows (pipelineLookup users (pipelineStream scope leagues))).mergeSort
    pipelineRowLe).take 100

/-- A row of the per-subject sub-pipeline of `calculateSubjectRanks`:
`$group` by user with `$sum` of `bestScore.points` and `$avg` of
`bestScore.accuracy`. -/
structure SubjectRow where
  userId : Nat
  totalPoints : ℚ
  averageAccuracy : Option ℚ
  deriving Repr, DecidableEq

/-- `$match: { subject, status: "active" }` followed by `$unwind` for the
subject sub-pipeline; the subject clause again matches no stored document. -/
def subjectStream (subject : String) (leagues : List League) : List Participant :=
  (leagues.filter (fun l => docSubject l = some subject ∧ l.status = "active")).flatMap
    (fun l => l.participants)

/-- The `$group` stage of the subject sub-pipeline. -/
def subjectRows (subject : String) (leagues : List League) : List SubjectRow :=
  (dedupFirst ((subjectStream subject leagues).map (fun p => p.userId))).map
    (fun k =>
      let es := (subjectStream subject leagues).filter (fun p => p.userId = k)
      { userId := k
        totalPoints := mongoSum (es.map bestScorePoints)
        averageAccuracy := mongoAvg (es.map bestScoreAccuracy) })

/-- Descending comparison of a possibly-null `$avg`: MongoDB sorts null after
every number in a descending sort. -/
def optDescAccLe (a b : Option ℚ) : Bool :=
  match a, b with
  | some x, some y => y ≤ x
  | some _, none => true
  | none, some _ => false
  | none, none => true

/-- The subject sub-pipeline's
`$sort: { totalPoints: -1, averageAccuracy: -1 }` comparator. -/
def subjLe (a b : SubjectRow) : Bool :=
  if a.totalPoints ≠ b.totalPoints then b.totalPoints ≤ a.totalPoints
  else optDescAccLe a.averageAccuracy b.averageAccuracy

/-- `calculateSubjectRanks`: for each of math/science/english, the user's
1-based `findIndex` position in the subject leaderboard, omitted when the
user does not appear. -/
def calculateSubjectRanks (leagues : List League) (uid : Nat) : List (String × Nat) :=
  ["math", "science", "english"].filterMap (fun subj =>
    match ((subjectRows subj leagues).mergeSort subjLe).findIdx?
        (fun r => r.userId = uid) with
    | some i => some (subj, i + 1)
    | none => none)

/-- The `performerData` object for the row at 0-based position `i`: rounded
aggregates, `lastActive || new Date()` (`now` when the `$max` was null),
`rank: index + 1`, and subject ranks only for the global scope. -/
def mkPerformer (now : Int) (scope : String) (leagues : List League) (i : Nat)
    (r : PipelineRow) : Performer :=
  { userId := r.userId
    username := r.username
    email := r.email
    totalPoints := jsRound r.totalPoints
    accuracy := jsRound (pipelineAvgAcc r)
    totalSubmissions := r.totalSubmissions
    averageTime := jsRound (pipelineAvgTime r)
    lastActive := (r.lastActive).getD now
    rank := i + 1
    subjectRanks := if scope = "global" then calculateSubjectRanks leagues r.userId else [] }

/-- The `topPerformers` loop over the sorted-and-limited rows. -/
def mkPerformers (now : Int) (scope : String) (leagues : List League) :
    Nat → List PipelineRow → List Performer
  | _, [] => []
  | i, r :: rs => mkPerformer now scope leagues i r :: mkPerformers now scope leagues (i + 1) rs

/-- `generateLeaderboardData` over the stored collections: run the pipeline,
build the ranked performer list, and compute the summary statistics over
it. -/
def generateLeaderboardData (users : List UserDoc) (leagues : List League)
    (now : Int) (scope : String) : LeaderboardData :=
  let tp := mkPerformers now scope leagues 0 (sortedTopRows users leagues scope)
  let totalUsers := tp.length
  { totalUsers := totalUsers
    topPerformers := tp
    averageAccuracy :=
      if totalUsers > 0 then
        jsRound ((((tp.map (fun u => u.accuracy)).sum : Int) : ℚ) / totalUsers)
      else 0
    averagePoints :=
      if totalUsers > 0 then
        jsRound ((((tp.map (fun u => u.totalPoints)).sum : Int) : ℚ) / totalUsers)
      else 0
    totalSubmissions := (tp.map (fun u => u.totalSubmissions)).sum }

theorem jsRound_zero : jsRound 0 = 0 := by
  unfold jsRound
  rw [zero_add, Int.floor_eq_zero_iff, Set.mem_Ico]
  norm_num

theorem mongoSum_map_none {α : Type} (f : α → Option ℚ) (hf : ∀ a, f a = none)
    (xs : List α) : mongoSum (xs.map f) = 0 := by
  induction xs with
  | nil => rfl
  | cons x xs ih =>
    unfold mongoSum at ih ⊢
    rw [List.map_cons, List.filterMap_cons_none (by simpa using hf x)]
    exact ih

theorem mongoMax_map_none {α : Type} (f : α → Option Int) (hf : ∀ a, f a = none)
    (xs : List α) : mongoMax (xs.map f) = none := by
  induction xs with
  | nil => rfl
  | cons x xs ih =>
    unfold mongoMax at ih ⊢
    rw [List.map_cons, List.filterMap_cons_none (by simpa using hf x)]
    exact ih

theorem pipelineRows_all_zero (stream : List (Participant × UserDoc)) :
    ∀ r ∈ pipelineRows stream,
      r.totalPoints = 0 ∧ r.totalSubmissions = 0 ∧ r.accuracySum = 0 ∧
        r.timeSum = 0 ∧ r.lastActive = none := by
  intro r hr
  obtain ⟨k, hk, hrk⟩ := List.mem_map.mp hr
  subst hrk
  exact ⟨mongoSum_map_none _ (fun e => rfl) _, mongoSum_map_none _ (fun e => rfl) _,
    mongoSum_map_none _ (fun e => rfl) _, mongoSum_map_none _ (fun e => rfl) _,
    mongoMax_map_none _ (fun e => rfl) _⟩

theorem pipelineStream_non_global (scope : String) (h : scope ≠ "global")
    (leagues : List League) : pipelineStream scope leagues = [] := by
  unfold pipelineStream
  have hf : leagues.filter (pipelineMatch scope) = [] := by
    rw [List.filter_eq_nil_iff]
    intro l hl
    unfold pipelineMatch
    rw [if_neg h]
    simp [docSubject]
  rw [hf]
  rfl

theorem generateLeaderboardData_non_global (users : List UserDoc)
    (leagues : List League) (now : Int) (scope : String) (h : scope ≠ "global") :
    generateLeaderboardData users leagues now scope = emptyData := by
  have hs : pipelineStream scope leagues = [] := pipelineStream_non_global scope h leagues
  simp [generateLeaderboardData, sortedTopRows, pipelineRows, pipelineLookup, hs,
    dedupFirst, mkPerformers, emptyData]

/-- The users known during the snapshot-aggregation evaluation. -/
def exUsers : List UserDoc :=
  [{ uid := 1, username := "u1", email := "e1" }]

/-- A stored collection with one active league of category "math" whose sole
participant (user 1) has two recorded submissions and a best submission
worth 10 points at 80% accuracy in 30 seconds. -/
def exLeagues : List League :=
  [{ startDate := 0, endDate := 10, scoringMethod := "points_only", maxSubmissions := 3,
     status := "active", category := "math",
     participants :=
       [{ userId := 1, username := "u1", joinedAt := 0,
          submissions := [exScore 4, exScore 6],
          bestSubmission :=
            { accuracy := 80, timeInSeconds := 30, points := 10, submittedAt := 5 } }] }]

/-- C5 fails on the code: the aggregation pipeline of
`generateLeaderboardData` matches subject scopes on a `subject` field no
stored league document carries and aggregates the missing
`participants.bestScore.*`, `participants.submissionCount` and
`participants.lastSubmission` paths.  Evaluated at a stored collection
holding an active "math" league whose participant has a 10-point best
submission and two recorded submissions (last conjunct), the "math" scope
produces no performers at all, and the "global" scope produces the
participant with zero total points, zero accuracy, zero submissions, zero
mean time, `lastActive` equal to the wall clock fallback, and an empty
subject-rank mapping — not the per-user sums of best-submission data the
claim describes. -/
theorem generateLeaderboardData_code_bug :
    (generateLeaderboardData exUsers exLeagues 99 "math").topPerformers = []
    ∧ (generateLeaderboardData exUsers exLeagues 99 "math").totalUsers = 0
    ∧ (generateLeaderboardData exUsers exLeagues 99 "global").topPerformers.map
        (fun p => (p.userId, p.totalPoints, p.accuracy, p.totalSubmissions,
          p.averageTime, p.lastActive, p.subjectRanks)) =
      [(1, 0, 0, 0, 0, 99, ([] : List (String × Nat)))]
    ∧ exLeagues.map (fun l => (l.status, l.category,
        l.participants.map (fun p => p.bestSubmission.points))) =
      [("active", "math", [10])] := by
  refine ⟨?_, ?_, ?_, by rfl⟩
  · rw [generateLeaderboardData_non_global exUsers exLeagues 99 "math" (by decide)]
    rfl
  · rw [generateLeaderboardData_non_global exUsers exLeagues 99 "math" (by decide)]
    rfl
  · simp [generateLeaderboardData, sortedTopRows, pipelineRows, pipelineLookup,
      pipelineStream, pipelineMatch, exUsers, exLeagues, dedupFirst, pipelineAggregate,
      mongoSum, mongoMax, pipelineAvgAcc, pipelineAvgTime, mkPerformers, mkPerformer,
      jsRound_zero, calculateSubjectRanks, subjectRows, subjectStream, docSubject,
      bestScorePoints, bestScoreAccuracy, bestScoreTime, submissionCount, lastSubmission,
      List.mergeSort]
